import Mathlib

set_option maxRecDepth 100000

/-!
Verification development for the DNS codec core of the `dns-parser`
repository: the compressed-name codec (`src/name.rs`), the RDATA dispatch
framework (`src/rdata/mod.rs`, `src/rdata/a.rs`, `src/rdata/txt.rs`,
`src/rdata/nsec.rs`) and the message builder (`src/builder.rs`).

Conventions of the embedding:
* Rust byte slices (`&[u8]`, `Vec<u8>`) become `List Nat`; fidelity to u8
  semantics is obtained by explicit `% 2^w` at write sites and by `< 256`
  hypotheses where a theorem needs them.
* Rust `String`/`&str` values become `List Nat` of their UTF-8 bytes
  (a Rust `String` is exactly a UTF-8 byte vector; `len`, `split('.')` and
  `as_bytes` act on those bytes, and splitting at byte 46 coincides with
  splitting at the character for every valid UTF-8 string).
* Loops become fuel-indexed structural recursions; the fuel passed by the
  wrapper definitions is proved (or chosen) large enough, so the
  out-of-fuel branch is dead code for the wrapper's arguments.
* `panic!` / `assert!` / `unimplemented!` become `Option.none` results.
-/

namespace Dns

/-- Modelled from the spec (§7): the error enumeration of the crate
(declared in the crate root, which is not among the provided sources). -/
inductive Error where
  | UnexpectedEOF
  | BadPointer
  | UnknownLabelFormat
  | LabelIsNotAscii
  | WrongRdataLength
  | NotImplemented
  deriving DecidableEq, Repr

/-- Modelled from the spec (§2, §4.2): the record-type enumeration of the
crate root (not among the provided sources).  Constructors cover the nine
kinds dispatched by `RData::parse` plus further kinds named by the spec and
by the `rdata` module list. -/
inductive DnsType where
  | A | NS | CNAME | SOA | WKS | PTR | HINFO | MX | TXT | AAAA | SRV | OPT | NSEC
  deriving DecidableEq, Repr

/-- Modelled from the spec (§6): numeric code of a record type. -/
def DnsType.code : DnsType → Nat
  | .A => 1 | .NS => 2 | .CNAME => 5 | .SOA => 6 | .WKS => 11 | .PTR => 12
  | .HINFO => 13 | .MX => 15 | .TXT => 16 | .AAAA => 28 | .SRV => 33
  | .OPT => 41 | .NSEC => 47

/-- Modelled from the spec (§6): query-type enumeration (crate root). -/
inductive QueryType where
  | A | NS | CNAME | SOA | WKS | PTR | HINFO | MX | TXT | AAAA | SRV | NSEC | All
  deriving DecidableEq, Repr

/-- Modelled from the spec (§6): numeric code of a query type. -/
def QueryType.code : QueryType → Nat
  | .A => 1 | .NS => 2 | .CNAME => 5 | .SOA => 6 | .WKS => 11 | .PTR => 12
  | .HINFO => 13 | .MX => 15 | .TXT => 16 | .AAAA => 28 | .SRV => 33
  | .NSEC => 47 | .All => 255

/-- Modelled from the spec (§6): query-class enumeration (crate root). -/
inductive QueryClass where
  | IN | CS | CH | HS | Any
  deriving DecidableEq, Repr

/-- Modelled from the spec (§6): numeric code of a query class. -/
def QueryClass.code : QueryClass → Nat
  | .IN => 1 | .CS => 2 | .CH => 3 | .HS => 4 | .Any => 255

/-- Modelled from the spec (§6): resource-record class enumeration. -/
inductive Class where
  | IN | CS | CH | HS
  deriving DecidableEq, Repr

/-- Modelled from the spec (§6): numeric code of a class. -/
def Class.code : Class → Nat
  | .IN => 1 | .CS => 2 | .CH => 3 | .HS => 4

/-- Modelled from the spec (§4.3): opcode enumeration (crate root). -/
inductive Opcode where
  | StandardQuery | InverseQuery | ServerStatusRequest
  deriving DecidableEq, Repr

/-- Modelled from the spec: numeric opcode values. -/
def Opcode.code : Opcode → Nat
  | .StandardQuery => 0 | .InverseQuery => 1 | .ServerStatusRequest => 2

/-- Modelled from the spec (§4.3): response-code enumeration (crate root). -/
inductive ResponseCode where
  | NoError | FormatError | ServerFailure | NameError | NotImplementedErr | Refused
  deriving DecidableEq, Repr

/-- Modelled from the spec: numeric response-code values. -/
def ResponseCode.code : ResponseCode → Nat
  | .NoError => 0 | .FormatError => 1 | .ServerFailure => 2 | .NameError => 3
  | .NotImplementedErr => 4 | .Refused => 5

/-- Modelled from the spec (§3) and the field uses in `src/builder.rs`:
the 12-byte message header (defined in the crate root). -/
structure Header where
  id : Nat
  query : Bool
  opcode : Opcode
  authoritative : Bool
  truncated : Bool
  recursion_desired : Bool
  recursion_available : Bool
  authenticated_data : Bool
  checking_disabled : Bool
  response_code : ResponseCode
  questions : Nat
  answers : Nat
  nameservers : Nat
  additional : Nat
  deriving DecidableEq, Repr

/-- Big-endian serialization of a 16-bit value (byteorder `write_u16`). -/
def u16be (n : Nat) : List Nat := [n / 256 % 256, n % 256]

/-- Big-endian serialization of a 32-bit value (byteorder `write_u32`). -/
def u32be (n : Nat) : List Nat :=
  [n / 16777216 % 256, n / 65536 % 256, n / 256 % 256, n % 256]

/-- Bit encoding of a Bool flag. -/
def bit (b : Bool) : Nat := if b then 1 else 0

/-- Modelled from the spec (§6, §8): `Header::write` fills the 12-byte
region with id, the two standard DNS flag bytes (QR, opcode, AA, TC, RD /
RA, AD, CD, RCODE) and the four section counts, big-endian.  The bit
layout itself lives in the crate root (not among the provided sources);
the spec's §8 fixes the observable bytes for queries. -/
def Header.write (h : Header) : List Nat :=
  let flags := bit (!h.query) * 32768 + h.opcode.code * 2048 +
    bit h.authoritative * 1024 + bit h.truncated * 512 +
    bit h.recursion_desired * 256 + bit h.recursion_available * 128 +
    bit h.authenticated_data * 32 + bit h.checking_disabled * 16 +
    h.response_code.code
  u16be (h.id % 65536) ++ u16be flags ++ u16be h.questions ++
    u16be h.answers ++ u16be h.nameservers ++ u16be h.additional

/-! ## Name codec (`src/name.rs`) -/

/-- The DNS name as stored in the original packet (`Name` in
`src/name.rs`): a view `labels` of the bytes the name occupies at its
original location and the reconstructed dotted string `str_val`
(UTF-8 bytes of the Rust `String`). -/
structure Name where
  labels : List Nat
  str_val : List Nat
  deriving DecidableEq, Repr

/-- One pass of the `while byte != 0` loop of `Name::scan`
(src/name.rs lines 42-86), fuel-indexed.  State: the current
`parse_data` slice, the position `pos` in it, the position `return_pos`
of the first followed pointer in `data` (if any) and the monotone bound
`largest_pos`.  Returns the final `(return_pos, pos)` pair or the error,
paired with the number of compression-pointer hops taken; `none` means
out of fuel (dead for the fuel supplied by `Name.scan`, see
`scanLoopF_total`). -/
def scanLoopF (original : List Nat) :
    Nat → List Nat → Nat → Option Nat → Nat →
    Option (Except Error (Option Nat × Nat) × Nat)
  | 0, _, _, _, _ => none
  | fuel+1, parseData, pos, returnPos, largestPos =>
    if parseData.length ≤ pos then some (.error .UnexpectedEOF, 0)
    else
      let byte := parseData.getD pos 0
      if byte = 0 then some (.ok (returnPos, pos), 0)
      else if byte &&& 192 = 192 then
        if parseData.length < pos + 2 then some (.error .UnexpectedEOF, 0)
        else
          let off := (byte * 256 + parseData.getD (pos+1) 0) &&& 16383
          if original.length ≤ off then some (.error .UnexpectedEOF, 0)
          else
            let rp := returnPos.getD pos
            if largestPos ≤ off then some (.error .BadPointer, 0)
            else
              match scanLoopF original fuel (original.drop off) 0 (some rp) off with
              | none => none
              | some (r, h) => some (r, h + 1)
      else if byte &&& 192 = 0 then
        if parseData.length < pos + byte + 1 then some (.error .UnexpectedEOF, 0)
        else if ((parseData.drop (pos+1)).take byte).all (· < 128) then
          scanLoopF original fuel parseData (pos + byte + 1) returnPos largestPos
        else some (.error .LabelIsNotAscii, 0)
      else some (.error .UnknownLabelFormat, 0)

/-- Fuel supplied to `scanLoopF` by `Name.scan`; proved sufficient in
`scanLoopF_total`. -/
def scanFuel (data original : List Nat) : Nat :=
  data.length + 1 + original.length * (original.length + 2)

/-- One pass of the loop of the private `Name::to_string`
(src/name.rs lines 123-152), fuel-indexed; the fuel only limits
compression-pointer recursion depth plus label steps, and is sufficient
for every name validated by `Name.scan`.  Out-of-bounds reads (impossible
on scan-validated views) read 0 and the `unreachable!` arm returns `[]`. -/
def toStringF (original : List Nat) : Nat → List Nat → Nat → List Nat
  | 0, _, _ => []
  | fuel+1, data, pos =>
    let byte := data.getD pos 0
    if byte = 0 then []
    else if byte &&& 192 = 192 then
      let off := (byte * 256 + data.getD (pos+1) 0) &&& 16383
      (if pos ≠ 0 then [46] else []) ++ toStringF original fuel (original.drop off) 0
    else if byte &&& 192 = 0 then
      (if pos ≠ 0 then [46] else []) ++ (data.drop (pos+1)).take byte ++
        toStringF original fuel data (pos + byte + 1)
    else []

/-- Fuel supplied to `toStringF` when `Name.scan` builds `str_val`. -/
def strFuel (labels original : List Nat) : Nat :=
  labels.length + 1 + original.length * (original.length + 2)

/-- `Name::to_string(labels, original)` as called by `Name::scan`. -/
def nameToString (labels original : List Nat) : List Nat :=
  toStringF original (strFuel labels original) labels 0

/-- `Name::scan(data, original)` (src/name.rs lines 31-98). -/
def Name.scan (data original : List Nat) : Except Error Name :=
  match scanLoopF original (scanFuel data original) data 0 none original.length with
  | none => .error .UnexpectedEOF
  | some (.error e, _) => .error e
  | some (.ok (some rp, _), _) =>
      .ok ⟨data.take (rp+2), nameToString (data.take (rp+2)) original⟩
  | some (.ok (none, pos), _) =>
      .ok ⟨data.take (pos+1), nameToString (data.take (pos+1)) original⟩

/-- `Name::from_string` (src/name.rs lines 101-103). -/
def Name.from_string (s : List Nat) : Name := ⟨[], s⟩

/-- Rust `str::split('.')` on UTF-8 bytes (byte 46 is `.`). -/
def splitDot : List Nat → List (List Nat)
  | [] => [[]]
  | b :: rest =>
    if b = 46 then [] :: splitDot rest
    else
      match splitDot rest with
      | [] => [[b]]
      | p :: ps => (b :: p) :: ps

/-- The label bytes written by the loop of `Name::to_bytes` /
`Builder::write_name`: for each part a length byte then the content. -/
def encodeLabels (parts : List (List Nat)) : List Nat :=
  (parts.map fun p => p.length :: p).flatten

/-- Join parts with the dot byte 46: inverse of `splitDot`. -/
def dotJoin : List (List Nat) → List Nat
  | [] => []
  | p :: ps => if ps = [] then p else p ++ 46 :: dotJoin ps

/-- Shared body of `Name::to_bytes` (src/name.rs lines 106-116) and
`Builder::write_name` (src/builder.rs lines 125-133): split the dotted
string, emit each label length-prefixed, terminate with a zero byte.
`none` models the `assert!(part.len() < 63)` abort. -/
def writeName (s : List Nat) : Option (List Nat) :=
  let parts := splitDot s
  if parts.all (fun p => p.length < 63) then some (encodeLabels parts ++ [0])
  else none

/-- `Name::to_bytes` (src/name.rs lines 106-116). -/
def Name.to_bytes (nm : Name) : Option (List Nat) := writeName nm.str_val

/-- `Name::octet_length` (src/name.rs lines 119-121):
`str_val.len() as u16 + 2` with u16 wrap-around. -/
def Name.octet_length (nm : Name) : Nat :=
  (nm.str_val.length % 65536 + 2) % 65536

/-- `Name::byte_len` (src/name.rs lines 155-157). -/
def Name.byte_len (nm : Name) : Nat := nm.labels.length

/-! ## TXT records (`src/rdata/txt.rs`) -/

/-- `SEGMENT_LENGTH` (src/rdata/txt.rs line 3). -/
def SEGMENT_LENGTH : Nat := 255

/-- TXT `Record` (src/rdata/txt.rs lines 5-8): the raw concatenation of
length-prefixed segments. -/
structure TxtRecord where
  bytes : List Nat
  deriving DecidableEq, Repr

/-- The `while pos < byte_len` loop of `txt::Record::from_str`
(src/rdata/txt.rs lines 43-54), fuel-indexed, with the already-consumed
part of the input dropped instead of tracking `pos`.  Each iteration
either emits a 255-byte segment (when 256 or more bytes remain) or a
final segment with all remaining bytes. -/
def fromStrF : Nat → List Nat → List Nat
  | 0, _ => []
  | fuel+1, b =>
    if b.length = 0 then []
    else if 256 ≤ b.length then
      SEGMENT_LENGTH :: (b.take SEGMENT_LENGTH ++ fromStrF fuel (b.drop SEGMENT_LENGTH))
    else b.length :: b

/-- `txt::Record::from_str` (src/rdata/txt.rs lines 38-57), applied to the
UTF-8 bytes of the argument string.  The fuel `bytes.length + 1` always
suffices because every iteration consumes at least one input byte. -/
def txtFromStr (bytes : List Nat) : TxtRecord :=
  ⟨fromStrF (bytes.length + 1) bytes⟩

/-- The segment boundaries produced by `from_str`, as a list of segments:
same loop as `fromStrF` but collecting the segment contents. -/
def txtChunksF : Nat → List Nat → List (List Nat)
  | 0, _ => []
  | fuel+1, b =>
    if b.length = 0 then []
    else if 256 ≤ b.length then
      b.take SEGMENT_LENGTH :: txtChunksF fuel (b.drop SEGMENT_LENGTH)
    else [b]

/-- Segment list of a byte string under `from_str` 255-byte splitting. -/
def txtChunks (bytes : List Nat) : List (List Nat) :=
  txtChunksF (bytes.length + 1) bytes

/-- Wire form of a list of segments: each segment length-prefixed. -/
def encSegs (segs : List (List Nat)) : List Nat :=
  (segs.map fun c => c.length :: c).flatten

/-- Repeated `RecordIter::next` (src/rdata/txt.rs lines 15-27) until
exhaustion, fuel-indexed: read a length byte, split off that many bytes
as a segment.  `none` models the `split_at` panic on a truncated segment
(and the unreachable out-of-fuel case). -/
def recIterF : Nat → List Nat → Option (List (List Nat))
  | 0, _ => none
  | _+1, [] => some []
  | fuel+1, l :: rest =>
    if rest.length < l then none
    else
      match recIterF fuel (rest.drop l) with
      | none => none
      | some segs => some (rest.take l :: segs)

/-- All segments yielded by `Record::iter()` (src/rdata/txt.rs
lines 29-36): iterate `RecordIter::next` over the record's bytes.  The
fuel `bytes.length + 1` always suffices because every `next` consumes at
least the length byte. -/
def txtIter (r : TxtRecord) : Option (List (List Nat)) :=
  recIterF (r.bytes.length + 1) r.bytes

/-- The `while pos < len` validation loop of `txt::Record::parse`
(src/rdata/txt.rs lines 70-78), fuel-indexed, on the not-yet-validated
suffix: `false` when a declared segment length overruns the buffer. -/
def txtValidF : Nat → List Nat → Bool
  | 0, _ => true
  | fuel+1, b =>
    if b.length = 0 then true
    else if b.length < b.getD 0 0 + 1 then false
    else txtValidF fuel (b.drop (b.getD 0 0 + 1))

/-- `txt::Record::length` (src/rdata/txt.rs lines 84-86), with the
`as u16` cast. -/
def TxtRecord.length (r : TxtRecord) : Nat := r.bytes.length % 65536

/-- `txt::Record::to_bytes` (src/rdata/txt.rs lines 88-90). -/
def TxtRecord.to_bytes (r : TxtRecord) : List Nat := r.bytes

/-! ## A records (`src/rdata/a.rs`) -/

/-- A `Record` (src/rdata/a.rs line 7): an IPv4 address as its 32-bit
numeric value. -/
structure ARecord where
  addr : Nat
  deriving DecidableEq, Repr

/-- `a::Record::to_bytes` (src/rdata/a.rs lines 26-29). -/
def ARecord.to_bytes (r : ARecord) : List Nat := u32be r.addr

/-! ## Remaining record kinds and the `RData` union (`src/rdata/mod.rs`) -/

/-- Modelled from the spec (§4.2, §6): the AAAA record kind
(src/rdata/aaaa.rs is not among the provided sources); a fixed-width
16-byte address payload. -/
structure AaaaRecord where
  bytes : List Nat
  deriving DecidableEq, Repr

/-- Modelled from the spec (§4.2): the MX record kind (src/rdata/mx.rs is
not among the provided sources): a 16-bit preference and an exchange name
resolved through the Name codec. -/
structure MxRecord where
  preference : Nat
  exchange : Name
  deriving DecidableEq, Repr

/-- Modelled from the spec (§4.2): the SOA record kind (src/rdata/soa.rs
is not among the provided sources): two names and five 32-bit fields. -/
structure SoaRecord where
  primary_ns : Name
  mailbox : Name
  serial : Nat
  refresh : Nat
  retry : Nat
  expire : Nat
  minimum_ttl : Nat
  deriving DecidableEq, Repr

/-- Modelled from the spec (§4.2): the SRV record kind (src/rdata/srv.rs
is not among the provided sources): priority, weight, port and a target
name resolved through the Name codec. -/
structure SrvRecord where
  priority : Nat
  weight : Nat
  port : Nat
  target : Name
  deriving DecidableEq, Repr

/-- The `RData` tagged union (src/rdata/mod.rs lines 47-59). -/
inductive RData where
  | A (r : ARecord)
  | AAAA (r : AaaaRecord)
  | CNAME (n : Name)
  | MX (r : MxRecord)
  | NS (n : Name)
  | PTR (n : Name)
  | SOA (r : SoaRecord)
  | SRV (r : SrvRecord)
  | TXT (r : TxtRecord)
  | Unknown (t : DnsType) (bytes : List Nat)
  deriving DecidableEq, Repr

/-- `a::Record::parse` (src/rdata/a.rs lines 13-20): exactly 4 bytes,
decoded as a big-endian 32-bit address. -/
def aParse (rdata : List Nat) : Except Error RData :=
  if rdata.length ≠ 4 then .error .WrongRdataLength
  else .ok (.A ⟨rdata.getD 0 0 * 16777216 + rdata.getD 1 0 * 65536 +
    rdata.getD 2 0 * 256 + rdata.getD 3 0⟩)

/-- `txt::Record::parse` (src/rdata/txt.rs lines 64-82): non-empty rdata
whose declared segment lengths all fit, stored verbatim. -/
def txtParse (rdata : List Nat) : Except Error RData :=
  if rdata.length < 1 then .error .WrongRdataLength
  else if txtValidF (rdata.length + 1) rdata then .ok (.TXT ⟨rdata⟩)
  else .error .WrongRdataLength

/-- Modelled from the spec (§4.2): AAAA parse, fixed 16-byte payload
(source file not provided). -/
def aaaaParse (rdata : List Nat) : Except Error RData :=
  if rdata.length ≠ 16 then .error .WrongRdataLength
  else .ok (.AAAA ⟨rdata⟩)

/-- Modelled from the spec (§4.2): a name-bearing kind resolves its name
from its RDATA slice against the whole message (source files for CNAME,
NS and PTR are not provided). -/
def nameParse (mk : Name → RData) (rdata original : List Nat) : Except Error RData :=
  match Name.scan rdata original with
  | .error e => .error e
  | .ok n => .ok (mk n)

/-- Modelled from the spec (§4.2): MX parse, a 16-bit preference then an
exchange name (source file not provided). -/
def mxParse (rdata original : List Nat) : Except Error RData :=
  if rdata.length < 2 then .error .WrongRdataLength
  else
    match Name.scan (rdata.drop 2) original with
    | .error e => .error e
    | .ok n => .ok (.MX ⟨rdata.getD 0 0 * 256 + rdata.getD 1 0, n⟩)

/-- Modelled from the spec (§4.2): SRV parse, three 16-bit fields then a
target name (source file not provided). -/
def srvParse (rdata original : List Nat) : Except Error RData :=
  if rdata.length < 6 then .error .WrongRdataLength
  else
    match Name.scan (rdata.drop 6) original with
    | .error e => .error e
    | .ok n => .ok (.SRV ⟨rdata.getD 0 0 * 256 + rdata.getD 1 0,
        rdata.getD 2 0 * 256 + rdata.getD 3 0,
        rdata.getD 4 0 * 256 + rdata.getD 5 0, n⟩)

/-- Read a big-endian u32 at offset `i`. -/
def readU32 (b : List Nat) (i : Nat) : Nat :=
  b.getD i 0 * 16777216 + b.getD (i+1) 0 * 65536 + b.getD (i+2) 0 * 256 +
    b.getD (i+3) 0

/-- Modelled from the spec (§4.2): SOA parse, two compressed names then
five 32-bit fields (source file not provided). -/
def soaParse (rdata original : List Nat) : Except Error RData :=
  match Name.scan rdata original with
  | .error e => .error e
  | .ok n1 =>
    match Name.scan (rdata.drop n1.byte_len) original with
    | .error e => .error e
    | .ok n2 =>
      let rest := rdata.drop (n1.byte_len + n2.byte_len)
      if rest.length < 20 then .error .WrongRdataLength
      else .ok (.SOA ⟨n1, n2, readU32 rest 0, readU32 rest 4, readU32 rest 8,
        readU32 rest 12, readU32 rest 16⟩)

/-- `RData::parse` (src/rdata/mod.rs lines 71-84): dispatch on the type
code; every type code without an arm falls through to `Unknown` with the
raw bytes stored verbatim. -/
def RData.parse (typ : DnsType) (rdata original : List Nat) : Except Error RData :=
  match typ with
  | .A => aParse rdata
  | .AAAA => aaaaParse rdata
  | .CNAME => nameParse .CNAME rdata original
  | .NS => nameParse .NS rdata original
  | .MX => mxParse rdata original
  | .PTR => nameParse .PTR rdata original
  | .SOA => soaParse rdata original
  | .SRV => srvParse rdata original
  | .TXT => txtParse rdata
  | _ => .ok (.Unknown typ rdata)

/-- Whether a type code has an arm in the `RData::parse` dispatch. -/
def DnsType.mapped : DnsType → Bool
  | .A | .AAAA | .CNAME | .NS | .MX | .PTR | .SOA | .SRV | .TXT => true
  | _ => false

/-- `RData::type_code` (src/rdata/mod.rs lines 89-102); `none` models the
`panic!("Unknown type")` on the `Unknown` variant. -/
def RData.type_code : RData → Option DnsType
  | .A _ => some .A
  | .AAAA _ => some .AAAA
  | .CNAME _ => some .CNAME
  | .NS _ => some .NS
  | .MX _ => some .MX
  | .PTR _ => some .PTR
  | .SOA _ => some .SOA
  | .SRV _ => some .SRV
  | .TXT _ => some .TXT
  | .Unknown _ _ => none

/-- `RData::rdata_length` (src/rdata/mod.rs lines 105-118); `none` models
the `panic!("Unknown type")` on the `Unknown` variant.  The per-kind
lengths for kinds whose sources are not provided are modelled from the
spec (§3: reported length equals serialized length). -/
def RData.rdata_length : RData → Option Nat
  | .A _ => some 4
  | .AAAA _ => some 16
  | .CNAME n => some n.octet_length
  | .NS n => some n.octet_length
  | .MX r => some ((2 + r.exchange.str_val.length + 2) % 65536)
  | .PTR n => some n.octet_length
  | .SOA r => some ((r.primary_ns.str_val.length + 2 +
      r.mailbox.str_val.length + 2 + 20) % 65536)
  | .SRV r => some ((6 + r.target.str_val.length + 2) % 65536)
  | .TXT r => some r.length
  | .Unknown _ _ => none

/-- `RData::to_bytes` (src/rdata/mod.rs lines 121-134); `none` models the
`panic!("Unknown type")` on the `Unknown` variant and the label-length
assertion aborts inside name serialization.  Kinds whose sources are not
provided are modelled from the spec (literal name encoding plus their
fixed-width fields). -/
def RData.to_bytes : RData → Option (List Nat)
  | .A r => some r.to_bytes
  | .AAAA r => some r.bytes
  | .CNAME n => n.to_bytes
  | .NS n => n.to_bytes
  | .MX r => (writeName r.exchange.str_val).map
      (fun nb => u16be r.preference ++ nb)
  | .PTR n => n.to_bytes
  | .SOA r =>
    match writeName r.primary_ns.str_val, writeName r.mailbox.str_val with
    | some b1, some b2 => some (b1 ++ b2 ++ u32be r.serial ++ u32be r.refresh ++
        u32be r.retry ++ u32be r.expire ++ u32be r.minimum_ttl)
    | _, _ => none
  | .SRV r => (writeName r.target.str_val).map
      (fun nb => u16be r.priority ++ u16be r.weight ++ u16be r.port ++ nb)
  | .TXT r => some r.to_bytes
  | .Unknown _ _ => none

/-! ## Message builder (`src/builder.rs`) -/

/-- `Question` (src/builder.rs lines 8-15). -/
structure Question where
  qname : List Nat
  prefer_unicast : Bool
  qtype : QueryType
  qclass : QueryClass
  deriving DecidableEq, Repr

/-- `ResourceRecord` (declared in the crate root; fields as used by
`Builder::answer`, src/builder.rs lines 112-118). -/
structure ResourceRecord where
  name : Name
  cls : Class
  ttl : Nat
  multicast_unique : Bool
  data : RData
  deriving DecidableEq, Repr

/-- `Builder` (src/builder.rs lines 22-28). -/
structure Builder where
  head : Header
  questions : List Question
  answers : List ResourceRecord
  nameservers : List ResourceRecord
  additional : List ResourceRecord
  deriving DecidableEq, Repr

/-- `Builder::new` (src/builder.rs lines 64-88). -/
def Builder.new (id : Nat) (recursion : Bool) : Builder where
  head :=
    { id := id, query := true, opcode := .StandardQuery, authoritative := false
      truncated := false, recursion_desired := recursion
      recursion_available := false, authenticated_data := false
      checking_disabled := false, response_code := .NoError
      questions := 0, answers := 0, nameservers := 0, additional := 0 }
  questions := []
  answers := []
  nameservers := []
  additional := []

/-- `Builder::question` (src/builder.rs lines 91-107); `none` models the
`panic!("Too many questions")` at 65535 pending questions. -/
def Builder.question (b : Builder) (qname : List Nat) (prefer_unicast : Bool)
    (qtype : QueryType) (qclass : QueryClass) : Option Builder :=
  if b.head.questions = 65535 then none
  else some { b with
    questions := b.questions ++ [⟨qname, prefer_unicast, qtype, qclass⟩]
    head := { b.head with questions := b.head.questions + 1 } }

/-- `Builder::answer` (src/builder.rs lines 110-123). -/
def Builder.answer (b : Builder) (qname : List Nat) (cls : Class)
    (data : RData) (multicast_unique : Bool) (ttl : Nat) : Builder :=
  { b with
    answers := b.answers ++
      [⟨Name.from_string qname, cls, ttl, multicast_unique, data⟩]
    head := { b.head with answers := b.head.answers + 1 } }

/-- The question section bytes written by the first loop of
`Builder::build` (src/builder.rs lines 37-42): name, type code and class
code with the unicast-preference flag packed into bit 15. -/
def serializeQuestion (q : Question) : Option (List Nat) :=
  (writeName q.qname).map fun nb =>
    nb ++ u16be q.qtype.code ++
      u16be (q.qclass.code ||| if q.prefer_unicast then 32768 else 0)

/-- The resource-record bytes written by the second loop of
`Builder::build` (src/builder.rs lines 44-55): name (via `to_string`,
i.e. `str_val`), type code, class, TTL, RDATA length, RDATA bytes.
The `multicast_unique` flag of the record is never written. -/
def serializeAnswer (rr : ResourceRecord) : Option (List Nat) :=
  match writeName rr.name.str_val, rr.data.type_code, rr.data.rdata_length,
      rr.data.to_bytes with
  | some nb, some tc, some rl, some db =>
    some (nb ++ u16be tc.code ++ u16be rr.cls.code ++ u32be rr.ttl ++
      u16be rl ++ db)
  | _, _, _, _ => none

/-- `Builder::build` (src/builder.rs lines 32-58): the 12-byte header,
then each question, then each answer; the nameserver and additional lists
are never serialized.  `none` models the panics reachable through
serialization (oversized label, `Unknown` RDATA). -/
def Builder.build (b : Builder) : Option (List Nat) :=
  match b.questions.mapM serializeQuestion, b.answers.mapM serializeAnswer with
  | some qs, some as_ => some (b.head.write ++ qs.flatten ++ as_.flatten)
  | _, _ => none

/-- One call against a `Builder` in a build sequence. -/
inductive Call where
  | question (qname : List Nat) (prefer_unicast : Bool)
      (qtype : QueryType) (qclass : QueryClass)
  | answer (qname : List Nat) (cls : Class) (data : RData)
      (multicast_unique : Bool) (ttl : Nat)
  deriving DecidableEq, Repr

/-- Run a sequence of builder calls. -/
def runCalls (b : Builder) : List Call → Option Builder
  | [] => some b
  | .question qn pu qt qc :: rest =>
    match b.question qn pu qt qc with
    | none => none
    | some b' => runCalls b' rest
  | .answer qn cls data mu ttl :: rest =>
    runCalls (b.answer qn cls data mu ttl) rest

/-- Erase the `multicast_unique` argument of a call. -/
def Call.scrub : Call → Call
  | .question qn pu qt qc => .question qn pu qt qc
  | .answer qn cls data _ ttl => .answer qn cls data false ttl

/-- Erase the stored `multicast_unique` flag of a resource record. -/
def scrubRR (rr : ResourceRecord) : ResourceRecord :=
  { rr with multicast_unique := false }

/-- Erase every stored `multicast_unique` flag of a builder. -/
def scrubB (b : Builder) : Builder :=
  { b with answers := b.answers.map scrubRR }

end Dns

deriving instance DecidableEq for Except

namespace Dns

/-! ## Helper lemmas about the TXT loops -/

/-- The flat bytes built by the `from_str` loop are exactly the
length-prefixed concatenation of the segments it splits off. -/
theorem fromStrF_eq_encSegs :
    ∀ (fuel : Nat) (b : List Nat), fromStrF fuel b = encSegs (txtChunksF fuel b) := by
  intro fuel
  induction fuel with
  | zero => intro b; simp [fromStrF, txtChunksF, encSegs]
  | succ n ih =>
    intro b
    simp only [fromStrF, txtChunksF]
    by_cases h0 : b.length = 0
    · rw [if_pos h0, if_pos h0]; simp [encSegs]
    rw [if_neg h0, if_neg h0]
    by_cases h1 : 256 ≤ b.length
    · rw [if_pos h1, if_pos h1]
      simp only [encSegs, List.map_cons, List.flatten_cons]
      rw [List.length_take, Nat.min_eq_left (by simp [SEGMENT_LENGTH]; omega)]
      simp [ih, encSegs]
    · rw [if_neg h1, if_neg h1]
      simp [encSegs]

/-- The fuel argument of the chunking loop is irrelevant once it exceeds
the input length (every iteration consumes 255 bytes). -/
theorem txtChunksF_fuel_irrel :
    ∀ (f1 f2 : Nat) (b : List Nat), b.length < f1 → b.length < f2 →
      txtChunksF f1 b = txtChunksF f2 b := by
  intro f1
  induction f1 with
  | zero => intro f2 b h1 h2; omega
  | succ n ih =>
    intro f2 b h1 h2
    cases f2 with
    | zero => omega
    | succ m =>
      simp only [txtChunksF]
      by_cases h0 : b.length = 0
      · rw [if_pos h0, if_pos h0]
      rw [if_neg h0, if_neg h0]
      by_cases hb : 256 ≤ b.length
      · rw [if_pos hb, if_pos hb]
        rw [ih m (b.drop SEGMENT_LENGTH)
          (by simp [SEGMENT_LENGTH]; omega) (by simp [SEGMENT_LENGTH]; omega)]
      · rw [if_neg hb, if_neg hb]

/-- Unfolding `txtChunks` on a short non-empty input. -/
theorem txtChunks_small (b : List Nat) (h0 : b ≠ []) (h1 : b.length < 256) :
    txtChunks b = [b] := by
  have : b.length ≠ 0 := by simpa [List.length_eq_zero] using h0
  simp only [txtChunks, txtChunksF]
  rw [if_neg this, if_neg (by omega)]

/-- Unfolding `txtChunks` on an input of 256 bytes or more: one
255-byte segment, then the chunking of the rest. -/
theorem txtChunks_big (b : List Nat) (h1 : 256 ≤ b.length) :
    txtChunks b = b.take SEGMENT_LENGTH :: txtChunks (b.drop SEGMENT_LENGTH) := by
  have step : txtChunks b =
      b.take SEGMENT_LENGTH :: txtChunksF b.length (b.drop SEGMENT_LENGTH) := by
    simp only [txtChunks, txtChunksF]
    rw [if_neg (by omega), if_pos h1]
  rw [step, txtChunks]
  rw [txtChunksF_fuel_irrel b.length ((b.drop SEGMENT_LENGTH).length + 1)
    (b.drop SEGMENT_LENGTH) (by simp [SEGMENT_LENGTH]; omega) (by omega)]

/-- The chunking of a non-empty input is non-empty. -/
theorem txtChunks_ne_nil (b : List Nat) (h0 : b ≠ []) : txtChunks b ≠ [] := by
  have : b.length ≠ 0 := by simpa [List.length_eq_zero] using h0
  simp only [txtChunks, txtChunksF]
  rw [if_neg this]
  by_cases hb : 256 ≤ b.length
  · rw [if_pos hb]; simp
  · rw [if_neg hb]; simp

/-- Every chunk before the last one is exactly 255 bytes. -/
theorem txtChunksF_dropLast_length :
    ∀ (fuel : Nat) (b : List Nat) (c : List Nat),
      c ∈ (txtChunksF fuel b).dropLast → c.length = SEGMENT_LENGTH := by
  intro fuel
  induction fuel with
  | zero => intro b c hc; simp [txtChunksF] at hc
  | succ n ih =>
    intro b c hc
    simp only [txtChunksF] at hc
    by_cases h0 : b.length = 0
    · rw [if_pos h0] at hc; simp at hc
    rw [if_neg h0] at hc
    by_cases hb : 256 ≤ b.length
    · rw [if_pos hb] at hc
      cases hr : txtChunksF n (b.drop SEGMENT_LENGTH) with
      | nil => rw [hr] at hc; simp at hc
      | cons c' cs =>
        rw [hr] at hc
        rw [List.dropLast_cons₂] at hc
        rcases List.mem_cons.1 hc with h | h
        · subst h
          rw [List.length_take]
          simp [SEGMENT_LENGTH]
          omega
        · exact ih (b.drop SEGMENT_LENGTH) c (by rw [hr]; exact h)
    · rw [if_neg hb] at hc
      simp at hc

/-- Iterating `RecordIter::next` over length-prefixed segments recovers
exactly those segments. -/
theorem recIterF_encSegs :
    ∀ (segs : List (List Nat)) (fuel : Nat), segs.length + 1 ≤ fuel →
      recIterF fuel (encSegs segs) = some segs := by
  intro segs
  induction segs with
  | nil =>
    intro fuel hf
    cases fuel with
    | zero => omega
    | succ n => simp [encSegs, recIterF]
  | cons c cs ih =>
    intro fuel hf
    cases fuel with
    | zero => omega
    | succ n =>
      have henc : encSegs (c :: cs) = c.length :: (c ++ encSegs cs) := by
        simp [encSegs]
      rw [henc]
      simp only [recIterF]
      rw [if_neg (by simp)]
      rw [List.drop_left, List.take_left]
      rw [ih n (by simp at hf; omega)]

/-- Each segment of `encSegs` contributes at least one byte. -/
theorem length_le_encSegs :
    ∀ segs : List (List Nat), segs.length ≤ (encSegs segs).length := by
  intro segs
  induction segs with
  | nil => simp [encSegs]
  | cons c cs ih => simp [encSegs] at ih ⊢; omega

/-! ## Helper lemmas for the builder -/

/-- Answer serialization never reads the stored `multicast_unique` flag. -/
theorem serializeAnswer_scrubRR (rr : ResourceRecord) :
    serializeAnswer (scrubRR rr) = serializeAnswer rr := rfl

/-- Serializing a list of answers is insensitive to the flags. -/
theorem mapM_serializeAnswer_scrub (l : List ResourceRecord) :
    (l.map scrubRR).mapM serializeAnswer = l.mapM serializeAnswer := by
  induction l with
  | nil => rfl
  | cons rr rs ih =>
    rw [List.map_cons, List.mapM_cons, List.mapM_cons, serializeAnswer_scrubRR, ih]

/-- `build` yields the same bytes on the flag-erased builder. -/
theorem build_scrubB (b : Builder) : (scrubB b).build = b.build := by
  cases b with
  | mk head qs ans ns ad =>
    simp only [Builder.build, scrubB]
    rw [mapM_serializeAnswer_scrub]

/-- Adding a question commutes with flag erasure. -/
theorem question_scrubB (b : Builder) (qn : List Nat) (pu : Bool)
    (qt : QueryType) (qc : QueryClass) :
    Option.map scrubB (b.question qn pu qt qc) = (scrubB b).question qn pu qt qc := by
  cases b with
  | mk head qs ans ns ad =>
    simp only [Builder.question, scrubB]
    by_cases h : head.questions = 65535
    · rw [if_pos h, if_pos h]
      rfl
    · rw [if_neg h, if_neg h]
      rfl

/-- Adding an answer and then erasing flags equals erasing flags and
adding the answer with the flag cleared. -/
theorem answer_scrubB (b : Builder) (qn : List Nat) (cls : Class)
    (data : RData) (mu : Bool) (ttl : Nat) :
    scrubB (b.answer qn cls data mu ttl) =
      (scrubB b).answer qn cls data false ttl := by
  cases b with
  | mk head qs ans ns ad =>
    simp [Builder.answer, scrubB, scrubRR]

/-- Running a call sequence and erasing flags equals running the
flag-erased calls on the flag-erased builder. -/
theorem runCalls_map_scrubB :
    ∀ (cs : List Call) (b : Builder),
      Option.map scrubB (runCalls b cs) =
        runCalls (scrubB b) (cs.map Call.scrub) := by
  intro cs
  induction cs with
  | nil => intro b; rfl
  | cons c rest ih =>
    intro b
    cases c with
    | question qn pu qt qc =>
      simp only [runCalls, List.map_cons, Call.scrub]
      have hqs := question_scrubB b qn pu qt qc
      cases hq : b.question qn pu qt qc with
      | none =>
        rw [hq] at hqs
        simp only [Option.map_none'] at hqs
        rw [← hqs]
        rfl
      | some b' =>
        rw [hq] at hqs
        simp only [Option.map_some'] at hqs
        rw [← hqs]
        exact ih b'
    | answer qn cls data mu ttl =>
      simp only [runCalls, List.map_cons, Call.scrub]
      rw [ih (b.answer qn cls data mu ttl), answer_scrubB]

/-! ## Helper lemmas about labels, `splitDot` and the scan walk -/

/-- A byte below 64 has clear top two bits. -/
theorem land192_of_lt_64 : ∀ n < 64, n &&& 192 = 0 := by decide

/-- Reading at `pos + j` is reading at `j` in the dropped list. -/
theorem getD_eq_drop_getD (l : List Nat) (pos j : Nat) :
    l.getD (pos + j) 0 = (l.drop pos).getD j 0 := by
  simp [List.getD_eq_getElem?_getD, List.getElem?_drop]

/-- Unfolding `encodeLabels` on a cons. -/
theorem encodeLabels_cons (p : List Nat) (ps : List (List Nat)) :
    encodeLabels (p :: ps) = p.length :: (p ++ encodeLabels ps) := by
  simp [encodeLabels]

/-- Each label contributes at least its length byte. -/
theorem length_le_encodeLabels :
    ∀ parts : List (List Nat), parts.length ≤ (encodeLabels parts).length := by
  intro parts
  induction parts with
  | nil => simp [encodeLabels]
  | cons p ps ih => rw [encodeLabels_cons]; simp; omega

/-- Length accounting of literal label encoding versus the dotted string:
one length byte per label replaces one dot separator, plus one extra. -/
theorem encodeLabels_length :
    ∀ parts : List (List Nat), parts ≠ [] →
      (encodeLabels parts).length = (dotJoin parts).length + 1 := by
  intro parts
  induction parts with
  | nil => intro h; exact absurd rfl h
  | cons p ps ih =>
    intro _
    rw [encodeLabels_cons]
    cases hps : ps with
    | nil => simp [dotJoin, encodeLabels]
    | cons q qs =>
      have := ih (by simp [hps])
      rw [hps] at this
      simp [dotJoin, this]

/-- `splitDot` never returns the empty list of parts. -/
theorem splitDot_ne_nil : ∀ s : List Nat, splitDot s ≠ [] := by
  intro s
  induction s with
  | nil => simp [splitDot]
  | cons b rest ih =>
    simp only [splitDot]
    by_cases hb : b = 46
    · rw [if_pos hb]; simp
    · rw [if_neg hb]
      cases h : splitDot rest with
      | nil => simp
      | cons p ps => simp

/-- Joining with dots inverts `splitDot`. -/
theorem dotJoin_splitDot : ∀ s : List Nat, dotJoin (splitDot s) = s := by
  intro s
  induction s with
  | nil => simp [splitDot, dotJoin]
  | cons b rest ih =>
    simp only [splitDot]
    by_cases hb : b = 46
    · rw [if_pos hb]
      cases h : splitDot rest with
      | nil => exact absurd h (splitDot_ne_nil rest)
      | cons p ps =>
        rw [h] at ih
        have hd : dotJoin ([] :: p :: ps) = [] ++ 46 :: dotJoin (p :: ps) := by
          rw [dotJoin]
          rw [if_neg (by simp)]
        rw [hb, ← ih, hd]
        simp
    · rw [if_neg hb]
      cases h : splitDot rest with
      | nil => exact absurd h (splitDot_ne_nil rest)
      | cons p ps =>
        rw [h] at ih
        rw [← ih]
        cases hps : ps with
        | nil => simp [dotJoin]
        | cons q qs =>
          have hd1 : dotJoin ((b :: p) :: q :: qs) =
              (b :: p) ++ 46 :: dotJoin (q :: qs) := by
            rw [dotJoin]
            rw [if_neg (by simp)]
          have hd2 : dotJoin (p :: q :: qs) = p ++ 46 :: dotJoin (q :: qs) := by
            rw [dotJoin]
            rw [if_neg (by simp)]
          rw [hd1, hd2]
          simp

/-- Walking a buffer of well-formed literal labels followed by a zero
byte: the scan loop passes every label and stops at the terminator with
unchanged `return_pos` and the expected final position. -/
theorem scanLoopF_literal_walk :
    ∀ (parts : List (List Nat)) (k : Nat) (original pd rest : List Nat)
      (pos : Nat) (rp : Option Nat) (lp : Nat),
      pd.drop pos = encodeLabels parts ++ 0 :: rest →
      (∀ p ∈ parts, p ≠ [] ∧ p.length < 63 ∧ ∀ c ∈ p, c < 128) →
      scanLoopF original (k + parts.length + 1) pd pos rp lp =
        some (.ok (rp, pos + (encodeLabels parts).length), 0) := by
  intro parts
  induction parts with
  | nil =>
    intro k original pd rest pos rp lp hdrop _
    have hlen : pd.length - pos = rest.length + 1 := by
      have := congrArg List.length hdrop
      simpa [encodeLabels] using this
    have hpos : pos < pd.length := by omega
    have hbyte : pd.getD pos 0 = 0 := by
      rw [show pos = pos + 0 from rfl, getD_eq_drop_getD, hdrop]
      simp [encodeLabels]
    simp only [scanLoopF]
    rw [if_neg (by omega), if_pos hbyte]
    simp [encodeLabels]
  | cons p ps ih =>
    intro k original pd rest pos rp lp hdrop hwf
    obtain ⟨hpne, hplt, hpascii⟩ := hwf p (by simp)
    have hdrop' : pd.drop pos = p.length :: (p ++ (encodeLabels ps ++ 0 :: rest)) := by
      rw [hdrop, encodeLabels_cons]
      simp
    have hlen : pd.length - pos = p.length + (encodeLabels ps).length + rest.length + 2 := by
      have := congrArg List.length hdrop'
      simp at this
      omega
    have hpos : pos < pd.length := by omega
    have hbyte : pd.getD pos 0 = p.length := by
      rw [show pos = pos + 0 from rfl, getD_eq_drop_getD, hdrop']
      rfl
    have hplen0 : p.length ≠ 0 := by
      simpa [List.length_eq_zero] using hpne
    have hland : pd.getD pos 0 &&& 192 = 0 := by
      rw [hbyte]
      exact land192_of_lt_64 p.length (by omega)
    have htail : pd.drop (pos + 1) = p ++ (encodeLabels ps ++ 0 :: rest) := by
      rw [← List.drop_drop, hdrop']
      simp
    have hascii : ((pd.drop (pos + 1)).take (pd.getD pos 0)).all (· < 128) = true := by
      rw [htail, hbyte, List.take_left]
      simp only [List.all_eq_true, decide_eq_true_eq]
      exact fun c hc => hpascii c hc
    have hrest : pd.drop (pos + pd.getD pos 0 + 1) = encodeLabels ps ++ 0 :: rest := by
      rw [hbyte, show pos + p.length + 1 = (pos + 1) + p.length by omega,
        ← List.drop_drop, htail]
      simp [List.drop_left]
    have hfuel : k + (p :: ps).length + 1 = (k + ps.length + 1) + 1 := by
      simp
      omega
    rw [hfuel]
    rw [scanLoopF]
    rw [if_neg (by omega), if_neg (by rw [hbyte]; exact hplen0),
      if_neg (by rw [hland]; decide), if_pos hland, if_neg (by omega),
      if_pos hascii]
    rw [ih k original pd rest (pos + pd.getD pos 0 + 1) rp lp hrest
      (fun q hq => hwf q (by simp [hq]))]
    have hposeq : pos + pd.getD pos 0 + 1 + (encodeLabels ps).length =
        pos + (encodeLabels (p :: ps)).length := by
      rw [hbyte, encodeLabels_cons]
      simp
      omega
    rw [hposeq]

/-- Walking the same label buffer with the string-reconstruction loop:
the labels are emitted joined with dots, with a leading dot exactly when
the walk did not start at position 0 and at least one label follows. -/
theorem toStringF_literal_walk :
    ∀ (parts : List (List Nat)) (k : Nat) (original pd rest : List Nat) (pos : Nat),
      pd.drop pos = encodeLabels parts ++ 0 :: rest →
      (∀ p ∈ parts, p ≠ [] ∧ p.length < 63) →
      toStringF original (k + parts.length + 1) pd pos =
        (if pos ≠ 0 ∧ parts ≠ [] then [46] else []) ++ dotJoin parts := by
  intro parts
  induction parts with
  | nil =>
    intro k original pd rest pos hdrop _
    have hbyte : pd.getD pos 0 = 0 := by
      rw [show pos = pos + 0 from rfl, getD_eq_drop_getD, hdrop]
      simp [encodeLabels]
    simp only [toStringF]
    rw [if_pos hbyte]
    simp [dotJoin]
  | cons p ps ih =>
    intro k original pd rest pos hdrop hwf
    obtain ⟨hpne, hplt⟩ := hwf p (by simp)
    have hdrop' : pd.drop pos = p.length :: (p ++ (encodeLabels ps ++ 0 :: rest)) := by
      rw [hdrop, encodeLabels_cons]
      simp
    have hbyte : pd.getD pos 0 = p.length := by
      rw [show pos = pos + 0 from rfl, getD_eq_drop_getD, hdrop']
      rfl
    have hplen0 : p.length ≠ 0 := by
      simpa [List.length_eq_zero] using hpne
    have hland : pd.getD pos 0 &&& 192 = 0 := by
      rw [hbyte]
      exact land192_of_lt_64 p.length (by omega)
    have htail : pd.drop (pos + 1) = p ++ (encodeLabels ps ++ 0 :: rest) := by
      rw [← List.drop_drop, hdrop']
      simp
    have htake : (pd.drop (pos + 1)).take (pd.getD pos 0) = p := by
      rw [htail, hbyte, List.take_left]
    have hrest : pd.drop (pos + pd.getD pos 0 + 1) = encodeLabels ps ++ 0 :: rest := by
      rw [hbyte, show pos + p.length + 1 = (pos + 1) + p.length by omega,
        ← List.drop_drop, htail]
      simp [List.drop_left]
    have hfuel : k + (p :: ps).length + 1 = (k + ps.length + 1) + 1 := by
      simp
      omega
    rw [hfuel]
    rw [toStringF]
    rw [if_neg (by rw [hbyte]; exact hplen0), if_neg (by rw [hland]; decide),
      if_pos hland, htake]
    rw [ih k original pd rest (pos + pd.getD pos 0 + 1) hrest
      (fun q hq => hwf q (by simp [hq]))]
    have hpos' : pos + pd.getD pos 0 + 1 ≠ 0 := by omega
    cases hps : ps with
    | nil =>
      by_cases hp0 : pos = 0 <;> simp [hp0, dotJoin]
    | cons q qs =>
      rw [if_pos (show pos + pd.getD pos 0 + 1 ≠ 0 ∧ q :: qs ≠ [] from
        ⟨hpos', by simp⟩)]
      have hd : dotJoin (p :: q :: qs) = p ++ 46 :: dotJoin (q :: qs) := by
        rw [dotJoin]
        rw [if_neg (by simp)]
      rw [hd]
      by_cases hp0 : pos = 0 <;> simp [hp0]

end Dns

namespace Dns

/-! ## Theorems -/

/-- C1 counterexample: in `C0 02 C0 FF`, the second pointer processed
(at message offset 2) has target offset 255, which is greater than or
equal to the current descent bound 2, yet the scan returns
`UnexpectedEOF` — not `BadPointer` — because the target is also outside
`original` and that check runs first. -/
theorem scan_nondecreasing_oob_pointer_is_eof :
    Name.scan [192, 2, 192, 255] [192, 2, 192, 255] = .error .UnexpectedEOF ∧
    ¬ Name.scan [192, 2, 192, 255] [192, 2, 192, 255] = .error .BadPointer := by
  decide

/-- C1 amended: in `Name::scan`, a compression pointer whose 14-bit
target offset lies inside `original` but is not strictly below the
smallest offset followed so far (`largest_pos`, initialized to
`original.len()`) makes the scan return `BadPointer`, at every reachable
loop state; a target at or past the end of `original` instead returns
`UnexpectedEOF` before the descent check.  In particular the
self-referential pointer buffer `C0 02 C0 02` scans to `BadPointer`. -/
theorem scan_bad_pointer_on_nondecreasing_offset :
    (∀ (original pd : List Nat) (pos : Nat) (rp : Option Nat) (lp fuel : Nat),
      pos + 2 ≤ pd.length →
      pd.getD pos 0 &&& 192 = 192 →
      (pd.getD pos 0 * 256 + pd.getD (pos+1) 0) &&& 16383 < original.length →
      lp ≤ (pd.getD pos 0 * 256 + pd.getD (pos+1) 0) &&& 16383 →
      scanLoopF original (fuel+1) pd pos rp lp = some (.error .BadPointer, 0)) ∧
    Name.scan [192, 2, 192, 2] [192, 2, 192, 2] = .error .BadPointer := by
  constructor
  · intro original pd pos rp lp fuel h1 h2 h3 h4
    have hb0 : ¬ pd.getD pos 0 = 0 := by
      intro h
      rw [h] at h2
      exact absurd h2 (by decide)
    simp only [scanLoopF]
    rw [if_neg (by omega), if_neg hb0, if_pos h2, if_neg (by omega),
      if_neg (by omega), if_pos h4]
  · decide

/-- C1 witness: the general part applied at a pointer at position 0 of
`[192, 0]` targeting offset 0 with bound 0. -/
theorem scan_bad_pointer_on_nondecreasing_offset_witness :
    scanLoopF [0, 0] 1 [192, 0] 0 none 0 =
      some (.error .BadPointer, 0) :=
  scan_bad_pointer_on_nondecreasing_offset.1 [0, 0] [192, 0] 0 none 0 0
    (by decide) (by decide) (by decide) (by decide)

/-- C4 counterexample: RDATA under the unmapped type code NSEC parses to
the `Unknown` variant, but re-encoding through the generic union
interface does not reproduce the input bytes: `RData::to_bytes` on
`Unknown` is the `panic!("Unknown type")` arm (modelled `none`), not a
successful serialization. -/
theorem unknown_rdata_generic_reencode_fails :
    RData.parse .NSEC [1, 2, 3] [] = .ok (.Unknown .NSEC [1, 2, 3]) ∧
    ¬ RData.to_bytes (.Unknown .NSEC [1, 2, 3]) = some [1, 2, 3] := by
  decide

/-- C4 amended: for every type code without an entry in the `RData::parse`
dispatch, parsing never fails and returns `Unknown` holding the original
type code and the raw bytes verbatim (so the pair is preserved in the
variant itself), but every generic union operation (`type_code`,
`rdata_length`, `to_bytes`) on that value is the fatal
`panic!("Unknown type")` precondition violation (modelled `none`) rather
than a successful re-encoding. -/
theorem unknown_rdata_parse_verbatim :
    ∀ (typ : DnsType) (rdata original : List Nat), typ.mapped = false →
      RData.parse typ rdata original = .ok (.Unknown typ rdata) ∧
      RData.type_code (.Unknown typ rdata) = none ∧
      RData.rdata_length (.Unknown typ rdata) = none ∧
      RData.to_bytes (.Unknown typ rdata) = none := by
  intro typ rdata original h
  cases typ <;>
    simp_all [RData.parse, RData.type_code, RData.rdata_length,
      RData.to_bytes, DnsType.mapped]

/-- C4 witness: the amended theorem at type code WKS and bytes `[9, 9]`. -/
theorem unknown_rdata_parse_verbatim_witness :
    RData.parse .WKS [9, 9] [] = .ok (.Unknown .WKS [9, 9]) ∧
    RData.type_code (.Unknown .WKS [9, 9]) = none ∧
    RData.rdata_length (.Unknown .WKS [9, 9]) = none ∧
    RData.to_bytes (.Unknown .WKS [9, 9]) = none :=
  unknown_rdata_parse_verbatim .WKS [9, 9] [] (by decide)

/-- C5: building a query with id 1573, recursion desired and one question
`example.com` (type A, class IN, no unicast preference) yields exactly
id bytes `06 25`, flag bytes `01 00` (recursion-desired set, query
opcode, zero response code), counts `0001 0000 0000 0000`, the labels
`07 example 03 com 00`, type `0001` and class `0001`; with the
unicast-preference flag the class bytes become `80 01` (high bit 0x8000
set) and nothing else changes. -/
theorem build_query_bytes :
    ((Builder.new 1573 true).question
        [101, 120, 97, 109, 112, 108, 101, 46, 99, 111, 109] false .A .IN).bind
        Builder.build =
      some ([6, 37, 1, 0, 0, 1, 0, 0, 0, 0, 0, 0] ++
        [7, 101, 120, 97, 109, 112, 108, 101, 3, 99, 111, 109, 0] ++
        [0, 1] ++ [0, 1]) ∧
    ((Builder.new 1573 true).question
        [101, 120, 97, 109, 112, 108, 101, 46, 99, 111, 109] true .A .IN).bind
        Builder.build =
      some ([6, 37, 1, 0, 0, 1, 0, 0, 0, 0, 0, 0] ++
        [7, 101, 120, 97, 109, 112, 108, 101, 3, 99, 111, 109, 0] ++
        [0, 1] ++ [128, 1]) := by
  decide

/-- C6 counterexample: in the fixture
`02 78 78 00 02 79 79 C0 00 02 7A 7A C0 04`, the name scanned at offset 4
(`yy.xx`) occupies 5 bytes — label `02 79 79` plus the 2-byte pointer
field — not the 4 bytes the claim lists for it. -/
theorem fixture_byte_len_offset4 :
    (Name.scan ([2, 120, 120, 0, 2, 121, 121, 192, 0, 2, 122, 122, 192, 4].drop 4)
        [2, 120, 120, 0, 2, 121, 121, 192, 0, 2, 122, 122, 192, 4]).map
        Name.byte_len = .ok 5 ∧
    ¬ (Name.scan ([2, 120, 120, 0, 2, 121, 121, 192, 0, 2, 122, 122, 192, 4].drop 4)
        [2, 120, 120, 0, 2, 121, 121, 192, 0, 2, 122, 122, 192, 4]).map
        Name.byte_len = .ok 4 := by
  decide

/-- C6 amended: scanning the fixture buffer
`02 'x' 'x' 00 02 'y' 'y' C0 00 02 'z' 'z' C0 04` from offsets 0, 4 and 9
yields the names `xx`, `yy.xx` and `zz.yy.xx`, whose `byte_len` values
are the spans up to and including the own terminator or 2-byte pointer
field: 4, 5 and 5 bytes respectively. -/
theorem fixture_names_and_byte_lens :
    (Name.scan [2, 120, 120, 0, 2, 121, 121, 192, 0, 2, 122, 122, 192, 4]
        [2, 120, 120, 0, 2, 121, 121, 192, 0, 2, 122, 122, 192, 4]).map
        (fun n => (n.str_val, n.byte_len)) = .ok ([120, 120], 4) ∧
    (Name.scan ([2, 120, 120, 0, 2, 121, 121, 192, 0, 2, 122, 122, 192, 4].drop 4)
        [2, 120, 120, 0, 2, 121, 121, 192, 0, 2, 122, 122, 192, 4]).map
        (fun n => (n.str_val, n.byte_len)) =
      .ok ([121, 121, 46, 120, 120], 5) ∧
    (Name.scan ([2, 120, 120, 0, 2, 121, 121, 192, 0, 2, 122, 122, 192, 4].drop 9)
        [2, 120, 120, 0, 2, 121, 121, 192, 0, 2, 122, 122, 192, 4]).map
        (fun n => (n.str_val, n.byte_len)) =
      .ok ([122, 122, 46, 121, 121, 46, 120, 120], 5) := by
  decide

/-- C8 counterexample: `Name::scan` accepts a literal label of 63 content
bytes (length prefix 63 = 0b00111111 still has top bits 00), so a
returned name can contain a label longer than 62 bytes, contradicting
the claimed 0-62 prefix range. -/
theorem scan_accepts_63_byte_label :
    (Name.scan (63 :: (List.replicate 63 97 ++ [0]))
        (63 :: (List.replicate 63 97 ++ [0]))).map
        (fun n => (splitDot n.str_val).map List.length) = .ok [63] := by
  decide

/-- C8 amended: every literal label `Name::scan` accepts has a length
prefix in the range 0-63 (so an accepted non-terminal label carries 1-63
content bytes, not at most 62), and a non-ASCII byte in the label content
makes the scan return `LabelIsNotAscii`. -/
theorem scan_literal_label_invariant :
    ∀ (original pd : List Nat) (pos : Nat) (rp : Option Nat) (lp fuel : Nat),
      pos < pd.length → pd.getD pos 0 < 256 → ¬ pd.getD pos 0 = 0 →
      pd.getD pos 0 &&& 192 = 0 →
      (1 ≤ pd.getD pos 0 ∧ pd.getD pos 0 ≤ 63) ∧
      (pos + pd.getD pos 0 + 1 ≤ pd.length →
        ¬ ((pd.drop (pos+1)).take (pd.getD pos 0)).all (· < 128) = true →
        scanLoopF original (fuel+1) pd pos rp lp =
          some (.error .LabelIsNotAscii, 0)) := by
  intro original pd pos rp lp fuel hpos hlt hnz hmask
  have hle : pd.getD pos 0 ≤ 63 := by
    revert hmask
    revert hlt
    generalize pd.getD pos 0 = b
    revert b
    decide
  refine ⟨⟨by omega, hle⟩, ?_⟩
  intro hlen hascii
  have hm192 : ¬ pd.getD pos 0 &&& 192 = 192 := by
    rw [hmask]; decide
  simp only [scanLoopF]
  rw [if_neg (by omega), if_neg hnz, if_neg hm192, if_pos hmask,
    if_neg (by omega), if_neg hascii]

/-- Each compression-pointer hop of the scan loop strictly lowers the
`largest_pos` bound, so the number of hops of any completed run is at
most the starting bound. -/
theorem scanLoopF_hops_le :
    ∀ (fuel : Nat) (original pd : List Nat) (pos : Nat) (rp : Option Nat)
      (lp : Nat) (res : Except Error (Option Nat × Nat) × Nat),
      scanLoopF original fuel pd pos rp lp = some res → res.2 ≤ lp := by
  intro fuel
  induction fuel with
  | zero =>
    intro o pd pos rp lp res heq
    simp [scanLoopF] at heq
  | succ n ih =>
    intro o pd pos rp lp res heq
    simp only [scanLoopF] at heq
    by_cases h1 : pd.length ≤ pos
    · rw [if_pos h1] at heq
      injection heq with heq
      subst heq
      exact Nat.zero_le lp
    rw [if_neg h1] at heq
    by_cases h2 : pd.getD pos 0 = 0
    · rw [if_pos h2] at heq
      injection heq with heq
      subst heq
      exact Nat.zero_le lp
    rw [if_neg h2] at heq
    by_cases h3 : pd.getD pos 0 &&& 192 = 192
    · rw [if_pos h3] at heq
      by_cases h4 : pd.length < pos + 2
      · rw [if_pos h4] at heq
        injection heq with heq
        subst heq
        exact Nat.zero_le lp
      rw [if_neg h4] at heq
      by_cases h5 : o.length ≤ (pd.getD pos 0 * 256 + pd.getD (pos+1) 0) &&& 16383
      · rw [if_pos h5] at heq
        injection heq with heq
        subst heq
        exact Nat.zero_le lp
      rw [if_neg h5] at heq
      by_cases h6 : lp ≤ (pd.getD pos 0 * 256 + pd.getD (pos+1) 0) &&& 16383
      · rw [if_pos h6] at heq
        injection heq with heq
        subst heq
        exact Nat.zero_le lp
      rw [if_neg h6] at heq
      cases hrec : scanLoopF o n
          (o.drop ((pd.getD pos 0 * 256 + pd.getD (pos+1) 0) &&& 16383)) 0
          (some (rp.getD pos)) ((pd.getD pos 0 * 256 + pd.getD (pos+1) 0) &&& 16383) with
      | none => rw [hrec] at heq; cases heq
      | some rh =>
        rw [hrec] at heq
        injection heq with heq
        subst heq
        have hr := ih o _ 0 _ _ rh hrec
        simp only
        omega
    rw [if_neg h3] at heq
    by_cases h7 : pd.getD pos 0 &&& 192 = 0
    · rw [if_pos h7] at heq
      by_cases h8 : pd.length < pos + pd.getD pos 0 + 1
      · rw [if_pos h8] at heq
        injection heq with heq
        subst heq
        exact Nat.zero_le lp
      rw [if_neg h8] at heq
      by_cases h9 : ((pd.drop (pos+1)).take (pd.getD pos 0)).all (· < 128) = true
      · rw [if_pos h9] at heq
        exact ih o pd _ rp lp res heq
      · rw [if_neg h9] at heq
        injection heq with heq
        subst heq
        exact Nat.zero_le lp
    · rw [if_neg h7] at heq
      injection heq with heq
      subst heq
      exact Nat.zero_le lp

/-- Fuel sufficiency for the scan loop: within one `parse_data` segment
the position strictly advances, and every hop both consumes a bounded
amount of segment and strictly lowers the bound, so the stated fuel
completes every run. -/
theorem scanLoopF_total :
    ∀ (fuel : Nat) (original pd : List Nat) (pos : Nat) (rp : Option Nat)
      (lp : Nat),
      (pd.length - pos) + 1 + lp * (original.length + 2) ≤ fuel →
      ∃ res, scanLoopF original fuel pd pos rp lp = some res := by
  intro fuel
  induction fuel with
  | zero =>
    intro o pd pos rp lp hf
    omega
  | succ n ih =>
    intro o pd pos rp lp hf
    simp only [scanLoopF]
    by_cases h1 : pd.length ≤ pos
    · rw [if_pos h1]; exact ⟨_, rfl⟩
    rw [if_neg h1]
    by_cases h2 : pd.getD pos 0 = 0
    · rw [if_pos h2]; exact ⟨_, rfl⟩
    rw [if_neg h2]
    by_cases h3 : pd.getD pos 0 &&& 192 = 192
    · rw [if_pos h3]
      by_cases h4 : pd.length < pos + 2
      · rw [if_pos h4]; exact ⟨_, rfl⟩
      rw [if_neg h4]
      by_cases h5 : o.length ≤ (pd.getD pos 0 * 256 + pd.getD (pos+1) 0) &&& 16383
      · rw [if_pos h5]; exact ⟨_, rfl⟩
      rw [if_neg h5]
      by_cases h6 : lp ≤ (pd.getD pos 0 * 256 + pd.getD (pos+1) 0) &&& 16383
      · rw [if_pos h6]; exact ⟨_, rfl⟩
      rw [if_neg h6]
      have hmul : (((pd.getD pos 0 * 256 + pd.getD (pos+1) 0) &&& 16383) + 1) *
          (o.length + 2) ≤ lp * (o.length + 2) :=
        Nat.mul_le_mul_right _ (by omega)
      have hdist : (((pd.getD pos 0 * 256 + pd.getD (pos+1) 0) &&& 16383) + 1) *
          (o.length + 2) = ((pd.getD pos 0 * 256 + pd.getD (pos+1) 0) &&& 16383) *
          (o.length + 2) + (o.length + 2) := by ring
      obtain ⟨res', hrec⟩ := ih o
        (o.drop ((pd.getD pos 0 * 256 + pd.getD (pos+1) 0) &&& 16383)) 0
        (some (rp.getD pos)) ((pd.getD pos 0 * 256 + pd.getD (pos+1) 0) &&& 16383)
        (by simp only [List.length_drop]; omega)
      rw [hrec]
      exact ⟨_, rfl⟩
    rw [if_neg h3]
    by_cases h7 : pd.getD pos 0 &&& 192 = 0
    · rw [if_pos h7]
      by_cases h8 : pd.length < pos + pd.getD pos 0 + 1
      · rw [if_pos h8]; exact ⟨_, rfl⟩
      rw [if_neg h8]
      by_cases h9 : ((pd.drop (pos+1)).take (pd.getD pos 0)).all (· < 128) = true
      · rw [if_pos h9]
        exact ih o pd (pos + pd.getD pos 0 + 1) rp lp (by omega)
      · rw [if_neg h9]; exact ⟨_, rfl⟩
    · rw [if_neg h7]; exact ⟨_, rfl⟩

/-- C2: `Name::scan` terminates on every input pair: the fuel
`Name.scan` supplies always completes the loop (so the result is a `Name`
or an `Error` after finitely many steps), and the number of
compression-pointer hops taken in one scan never exceeds
`original.len()`, the starting value of the strictly decreasing
`largest_pos` bound. -/
theorem scan_terminates_with_bounded_hops :
    ∀ data original : List Nat,
      (∃ r hops,
        scanLoopF original (scanFuel data original) data 0 none original.length =
          some (r, hops) ∧ hops ≤ original.length) ∧
      ((∃ nm, Name.scan data original = .ok nm) ∨
       (∃ e, Name.scan data original = .error e)) := by
  intro data original
  obtain ⟨res, hres⟩ := scanLoopF_total (scanFuel data original) original data 0
    none original.length (by simp only [scanFuel]; omega)
  refine ⟨⟨res.1, res.2, by rw [hres], scanLoopF_hops_le _ _ _ _ _ _ _ hres⟩, ?_⟩
  cases hs : Name.scan data original with
  | ok nm => exact Or.inl ⟨nm, rfl⟩
  | error e => exact Or.inr ⟨e, rfl⟩

/-- C8 amended witness: the invariant applied at the one-byte label
`01 C8 00` whose content byte 200 is not ASCII. -/
theorem scan_literal_label_invariant_witness :
    (1 ≤ List.getD [1, 200, 0] 0 0 ∧ List.getD [1, 200, 0] 0 0 ≤ 63) ∧
    scanLoopF [] 1 [1, 200, 0] 0 none 0 =
      some (.error .LabelIsNotAscii, 0) := by
  have h := scan_literal_label_invariant [] [1, 200, 0] 0 none 0 0
    (by decide) (by decide) (by decide) (by decide)
  exact ⟨h.1, h.2 (by decide) (by decide)⟩

/-- C7: TXT encoding from a single string splits at 255-byte boundaries:
the 14-byte string `this is a test` encodes as `0x0E` followed by its
bytes; for every input of 256 bytes or more, `from_str` produces the
length-prefixed concatenation of at least two segments, every segment
but the last carrying exactly 255 content bytes, and iterating
`RecordIter::next` over the encoding recovers exactly those segment
boundaries; in particular a 300-byte input yields a 255-byte segment
followed by a 45-byte segment. -/
theorem txt_from_str_splits_at_255 :
    (txtFromStr [116, 104, 105, 115, 32, 105, 115, 32, 97, 32, 116, 101,
        115, 116]).bytes =
      [14, 116, 104, 105, 115, 32, 105, 115, 32, 97, 32, 116, 101, 115, 116] ∧
    (∀ b : List Nat, 256 ≤ b.length →
      (txtFromStr b).bytes = encSegs (txtChunks b) ∧
      2 ≤ (txtChunks b).length ∧
      (∀ c ∈ (txtChunks b).dropLast, c.length = 255) ∧
      txtIter (txtFromStr b) = some (txtChunks b)) ∧
    (∀ b : List Nat, b.length = 300 →
      txtChunks b = [b.take 255, b.drop 255] ∧
      (b.take 255).length = 255 ∧ (b.drop 255).length = 45 ∧
      txtIter (txtFromStr b) = some [b.take 255, b.drop 255]) := by
  have hbytes : ∀ b : List Nat, (txtFromStr b).bytes = encSegs (txtChunks b) := by
    intro b
    simp only [txtFromStr, txtChunks]
    exact fromStrF_eq_encSegs (b.length + 1) b
  have hiter : ∀ b : List Nat, txtIter (txtFromStr b) = some (txtChunks b) := by
    intro b
    have hlen : (txtChunks b).length ≤ ((txtFromStr b).bytes).length := by
      rw [hbytes b]
      exact length_le_encSegs (txtChunks b)
    simp only [txtIter]
    rw [hbytes b]
    refine recIterF_encSegs (txtChunks b) ((encSegs (txtChunks b)).length + 1) ?_
    have := length_le_encSegs (txtChunks b)
    omega
  have h300 : ∀ b : List Nat, b.length = 300 →
      txtChunks b = [b.take 255, b.drop 255] := by
    intro b h
    rw [txtChunks_big b (by omega)]
    rw [txtChunks_small (b.drop SEGMENT_LENGTH)
      (by simp [SEGMENT_LENGTH, ← List.length_pos]; omega)
      (by simp [SEGMENT_LENGTH]; omega)]
    simp [SEGMENT_LENGTH]
  refine ⟨by decide, fun b hb => ⟨hbytes b, ?_, ?_, hiter b⟩, fun b hb =>
    ⟨h300 b hb, by simp; omega, by simp; omega, by rw [← h300 b hb]; exact hiter b⟩⟩
  · rw [txtChunks_big b (by omega)]
    have hne := txtChunks_ne_nil (b.drop SEGMENT_LENGTH)
      (by simp [SEGMENT_LENGTH, ← List.length_pos]; omega)
    cases h : txtChunks (b.drop SEGMENT_LENGTH) with
    | nil => exact absurd h hne
    | cons c cs => simp
  · intro c hc
    exact txtChunksF_dropLast_length (b.length + 1) b c hc

/-- C3: a dotted name all of whose labels are non-empty, pure ASCII and
shorter than 63 bytes is reproduced exactly by encoding it with
`to_bytes` and scanning the resulting buffer (as both `data` and
`original`): the scanned name's string form equals the original dotted
string. -/
theorem encode_then_scan_reproduces_name :
    ∀ s : List Nat,
      (∀ p ∈ splitDot s, p ≠ [] ∧ p.length < 63 ∧ ∀ c ∈ p, c < 128) →
      ∃ B nm, Name.to_bytes (Name.from_string s) = some B ∧
        Name.scan B B = .ok nm ∧ nm.str_val = s := by
  intro s hwf
  have hall : ((splitDot s).all fun p => p.length < 63) = true := by
    rw [List.all_eq_true]
    intro p hp
    exact decide_eq_true (hwf p hp).2.1
  have hB : Name.to_bytes (Name.from_string s) =
      some (encodeLabels (splitDot s) ++ [0]) := by
    simp only [Name.to_bytes, Name.from_string, writeName]
    rw [if_pos hall]
  have hBlen : (encodeLabels (splitDot s) ++ [0]).length =
      (encodeLabels (splitDot s)).length + 1 := by simp
  have hple := length_le_encodeLabels (splitDot s)
  have hwalk := scanLoopF_literal_walk (splitDot s)
    (scanFuel (encodeLabels (splitDot s) ++ [0]) (encodeLabels (splitDot s) ++ [0]) -
      ((splitDot s).length + 1))
    (encodeLabels (splitDot s) ++ [0]) (encodeLabels (splitDot s) ++ [0]) [] 0
    none (encodeLabels (splitDot s) ++ [0]).length (by simp) hwf
  have hfuel : scanFuel (encodeLabels (splitDot s) ++ [0])
      (encodeLabels (splitDot s) ++ [0]) =
      (scanFuel (encodeLabels (splitDot s) ++ [0]) (encodeLabels (splitDot s) ++ [0]) -
        ((splitDot s).length + 1)) + (splitDot s).length + 1 := by
    simp only [scanFuel, hBlen]
    omega
  have hstr : nameToString (encodeLabels (splitDot s) ++ [0])
      (encodeLabels (splitDot s) ++ [0]) = s := by
    simp only [nameToString]
    have hfuel2 : strFuel (encodeLabels (splitDot s) ++ [0])
        (encodeLabels (splitDot s) ++ [0]) =
        (strFuel (encodeLabels (splitDot s) ++ [0]) (encodeLabels (splitDot s) ++ [0]) -
          ((splitDot s).length + 1)) + (splitDot s).length + 1 := by
      simp only [strFuel, hBlen]
      omega
    rw [hfuel2]
    rw [toStringF_literal_walk (splitDot s) _ (encodeLabels (splitDot s) ++ [0])
      (encodeLabels (splitDot s) ++ [0]) [] 0 (by simp)
      (fun p hp => ⟨(hwf p hp).1, (hwf p hp).2.1⟩)]
    simp [dotJoin_splitDot]
  have htakeB : (encodeLabels (splitDot s) ++ [0]).take
      (0 + (encodeLabels (splitDot s)).length + 1) =
      encodeLabels (splitDot s) ++ [0] := by
    have : 0 + (encodeLabels (splitDot s)).length + 1 =
        (encodeLabels (splitDot s) ++ [0]).length := by
      simp
    rw [this, List.take_length]
  refine ⟨encodeLabels (splitDot s) ++ [0],
    ⟨encodeLabels (splitDot s) ++ [0], s⟩, hB, ?_, rfl⟩
  simp only [Name.scan]
  rw [hfuel, hwalk]
  simp only [htakeB, hstr]

/-- C3 witness: the round trip at the name `example.com`. -/
theorem encode_then_scan_reproduces_name_witness :
    ∃ B nm, Name.to_bytes (Name.from_string
        [101, 120, 97, 109, 112, 108, 101, 46, 99, 111, 109]) = some B ∧
      Name.scan B B = .ok nm ∧
      nm.str_val = [101, 120, 97, 109, 112, 108, 101, 46, 99, 111, 109] :=
  encode_then_scan_reproduces_name
    [101, 120, 97, 109, 112, 108, 101, 46, 99, 111, 109] (by decide)

/-- C9 counterexample: for the multi-label (dot-containing) name `a.b`,
`octet_length()` (string length + 2 = 5) does agree exactly with the
length of the wire encoding produced by `to_bytes` (5 bytes:
`01 61 01 62 00`), contradicting the claim that the formula is not exact
for multi-label names. -/
theorem octet_length_exact_on_multilabel :
    (Name.from_string [97, 46, 98]).octet_length = 5 ∧
    (Name.to_bytes (Name.from_string [97, 46, 98])).map List.length = some 5 := by
  decide

/-- C9 amended: for every owned name whose labels are shorter than
63 bytes (so `to_bytes` does not abort) and whose encoded length fits a
u16, `octet_length()` returns the dotted string's byte length plus 2,
and this equals the length of the `to_bytes` wire encoding for all such
names — single- and multi-label alike — because each label's length byte
replaces one dot separator, plus one length byte and the terminator. -/
theorem octet_length_matches_to_bytes :
    ∀ s : List Nat, (∀ p ∈ splitDot s, p.length < 63) → s.length + 2 < 65536 →
      ∃ B, Name.to_bytes (Name.from_string s) = some B ∧
        (Name.from_string s).octet_length = s.length + 2 ∧
        B.length = s.length + 2 := by
  intro s h63 hlen
  have hall : ((splitDot s).all fun p => p.length < 63) = true := by
    rw [List.all_eq_true]
    intro p hp
    exact decide_eq_true (h63 p hp)
  have hB : Name.to_bytes (Name.from_string s) =
      some (encodeLabels (splitDot s) ++ [0]) := by
    simp only [Name.to_bytes, Name.from_string, writeName]
    rw [if_pos hall]
  have henc := encodeLabels_length (splitDot s) (splitDot_ne_nil s)
  rw [dotJoin_splitDot] at henc
  refine ⟨encodeLabels (splitDot s) ++ [0], hB, ?_, ?_⟩
  · simp only [Name.octet_length, Name.from_string]
    omega
  · simp [henc]

/-- C9 amended witness: the agreement at the multi-label name
`example.com` (string length 11, both sides 13). -/
theorem octet_length_matches_to_bytes_witness :
    ∃ B, Name.to_bytes (Name.from_string
        [101, 120, 97, 109, 112, 108, 101, 46, 99, 111, 109]) = some B ∧
      (Name.from_string [101, 120, 97, 109, 112, 108, 101, 46, 99, 111, 109]).octet_length =
        [101, 120, 97, 109, 112, 108, 101, 46, 99, 111, 109].length + 2 ∧
      B.length = [101, 120, 97, 109, 112, 108, 101, 46, 99, 111, 109].length + 2 :=
  octet_length_matches_to_bytes
    [101, 120, 97, 109, 112, 108, 101, 46, 99, 111, 109] (by decide) (by decide)

/-- C10: the bytes returned by `Builder::build()` are independent of the
`multicast_unique` arguments passed to `Builder::answer`: two builders
constructed by call sequences that differ only in those flags build to
identical results — the flag is stored on the resource record but never
serialized. -/
theorem build_independent_of_multicast_unique :
    ∀ (id : Nat) (recursion : Bool) (cs₁ cs₂ : List Call),
      cs₁.map Call.scrub = cs₂.map Call.scrub →
      (runCalls (Builder.new id recursion) cs₁).bind Builder.build =
      (runCalls (Builder.new id recursion) cs₂).bind Builder.build := by
  intro id recursion cs₁ cs₂ h
  have key : ∀ (cs : List Call) (b : Builder),
      (runCalls b cs).bind Builder.build =
      (runCalls (scrubB b) (cs.map Call.scrub)).bind Builder.build := by
    intro cs b
    rw [← runCalls_map_scrubB]
    cases runCalls b cs with
    | none => rfl
    | some b' => simp [build_scrubB]
  rw [key cs₁, key cs₂, h]

/-- C10 witness: one answer added with the flag set versus cleared builds
to the same bytes. -/
theorem build_independent_of_multicast_unique_witness :
    (runCalls (Builder.new 7 true)
        [.answer [120] .IN (.A ⟨77⟩) true 300]).bind Builder.build =
    (runCalls (Builder.new 7 true)
        [.answer [120] .IN (.A ⟨77⟩) false 300]).bind Builder.build :=
  build_independent_of_multicast_unique 7 true _ _ (by decide)

/-- C7 witness: the quantified parts of the theorem applied to the
300-byte input `replicate 300 1`. -/
theorem txt_from_str_splits_at_255_witness :
    txtIter (txtFromStr (List.replicate 300 1)) =
      some [(List.replicate 300 1).take 255, (List.replicate 300 1).drop 255] ∧
    2 ≤ (txtChunks (List.replicate 300 1)).length :=
  ⟨(txt_from_str_splits_at_255.2.2 (List.replicate 300 1) (by simp)).2.2.2,
   (txt_from_str_splits_at_255.2.1 (List.replicate 300 1) (by simp)).2.1⟩

end Dns
